import Mathlib

/-!
Verification of the frame-log analysis / quality-scoring core of the
bulk tracking evaluator (`spike/bulk_test.py`).

Modelling conventions:
* Pixel coordinates, confidences and times are exact rationals (ℚ).
* Euclidean distances are represented by their squares (`distSq`): every
  comparison the code performs on a distance (`dist < min_dist`,
  `jump_dist > 200`, `max_center_drift_px < 1.0`) is equivalent to the
  same comparison on squared distances because `Real.sqrt` is strictly
  monotone on nonnegative inputs; thresholds are squared accordingly
  (200² = 40000, 1² = 1, 0.5² = 1/4).
* `np.allclose` on exact rational boxes is modelled as equality.
* Python's `int()` (truncation toward zero) is `pyInt`.
* The `ValueError` raised by `summarize_frame_log` is modelled with
  `Except String`.
-/

namespace BulkTest

/-- Axis-aligned bounding box `(x1, y1, x2, y2)` in pixel coordinates. -/
structure Box where
  x1 : ℚ
  y1 : ℚ
  x2 : ℚ
  y2 : ℚ
deriving DecidableEq, Repr

/-- Center of a bounding box, `((x1+x2)/2, (y1+y2)/2)`, as in
`find_closest_box` and the per-frame metric accumulation. -/
def center (b : Box) : ℚ × ℚ := ((b.x1 + b.x2) / 2, (b.y1 + b.y2) / 2)

/-- Squared Euclidean distance between two points (see module comment:
all distance comparisons in the source are embedded on squares). -/
def distSq (p q : ℚ × ℚ) : ℚ := (p.1 - q.1) * (p.1 - q.1) + (p.2 - q.2) * (p.2 - q.2)

/-- Bounding-box area `(x2-x1)*(y2-y1)` (the `size` accumulated per frame). -/
def boxArea (b : Box) : ℚ := (b.x2 - b.x1) * (b.y2 - b.y1)

/-- One entry of `person_boxes_with_ids`: a person detection with a
persistent tracker identity (`{'bbox': ..., 'track_id': ..., 'conf': ...}`). -/
structure Candidate where
  bbox : Box
  track_id : ℤ
  conf : ℚ
deriving DecidableEq, Repr

/-- The `TrackingFrame` dataclass: per-frame tracking data. -/
structure TrackingFrame where
  frame : ℕ
  time_sec : ℚ
  tracked : Bool
  bbox : Option Box
  confidence : Option ℚ
  track_id : Option ℤ
deriving DecidableEq, Repr

/-- The dictionary returned by `summarize_frame_log`. -/
structure StreakStats where
  continuous_from_start_frames : ℕ
  continuous_from_start_sec : ℚ
  first_loss_time_sec : Option ℚ
  max_consecutive_loss_frames : ℕ
  max_consecutive_loss_sec : ℚ
  max_consecutive_tracked_frames : ℕ
  longest_tracked_streak_sec : ℚ
deriving DecidableEq, Repr

/-- First loop of `summarize_frame_log`: count consecutive tracked
records from index 0, stopping at the first untracked one. -/
def continuousFromStart : List TrackingFrame → ℕ
  | [] => 0
  | f :: rest => if f.tracked then continuousFromStart rest + 1 else 0

/-- Second loop of `summarize_frame_log`: `time_sec` of the first record
with `tracked == False`, `None` if every record is tracked. -/
def firstLossTime : List TrackingFrame → Option ℚ
  | [] => none
  | f :: rest => if f.tracked then firstLossTime rest else some f.time_sec

/-- The four running counters of the third loop of `summarize_frame_log`
(`max_consecutive_loss`, `current_loss_streak`, `max_consecutive_tracked`,
`current_tracked_streak`). -/
structure StreakState where
  maxLoss : ℕ
  curLoss : ℕ
  maxTr : ℕ
  curTr : ℕ
deriving DecidableEq, Repr

/-- One iteration of the streak loop: the matching counter is
incremented, the opposite counter reset, and both maxima updated. -/
def streakStep (s : StreakState) (tracked : Bool) : StreakState :=
  let ct := if tracked then s.curTr + 1 else 0
  let cl := if tracked then 0 else s.curLoss + 1
  { maxLoss := max s.maxLoss cl, curLoss := cl,
    maxTr := max s.maxTr ct, curTr := ct }

/-- `summarize_frame_log(frame_log, fps)`: raises (`Except.error`) when
`fps <= 0`, otherwise returns the streak statistics dictionary. -/
def summarize_frame_log (frame_log : List TrackingFrame) (fps : ℤ) :
    Except String StreakStats :=
  if fps ≤ 0 then Except.error "fps must be positive"
  else
    let st := frame_log.foldl (fun s r => streakStep s r.tracked) ⟨0, 0, 0, 0⟩
    Except.ok
      { continuous_from_start_frames := continuousFromStart frame_log
        continuous_from_start_sec := (continuousFromStart frame_log : ℚ) / (fps : ℚ)
        first_loss_time_sec := firstLossTime frame_log
        max_consecutive_loss_frames := st.maxLoss
        max_consecutive_loss_sec := (st.maxLoss : ℚ) / (fps : ℚ)
        max_consecutive_tracked_frames := st.maxTr
        longest_tracked_streak_sec := (st.maxTr : ℚ) / (fps : ℚ) }

/-- Python `int()` applied to a rational: truncation toward zero. -/
def pyInt (q : ℚ) : ℤ := if 0 ≤ q then ⌊q⌋ else ⌈q⌉

/-- `np.mean` of a list of rationals (`sum / length`; `0/0 = 0` in ℚ). -/
def listMean (l : List ℚ) : ℚ := l.sum / (l.length : ℚ)

/-- Maximum of a list of rationals, `0` for the empty list (the code
computes `max(center_drifts) if center_drifts else 0.0`, and every
stored drift is nonnegative, so the `0` seed is neutral). -/
def maxListQ (l : List ℚ) : ℚ := l.foldr max 0

/-- `frozen_track = len(frame_log) > 30 and max_center_drift_px < 1.0`
as a function of the total frame count and the max-drift metric. -/
def frozen_track_calc (total_frames : ℕ) (max_center_drift_px : ℚ) : Bool :=
  decide (30 < total_frames) && decide (max_center_drift_px < 1)

/-- The `likely_wrong_player` disjunction of `run_single_test`, as a
function of the accumulated metrics. -/
def likely_wrong_player_calc (position_jumps : ℕ)
    (bbox_variance bbox_size_variance : ℚ) (bbox_sizes : List ℚ)
    (center_drift_ratio frame_diag median_center_drift_px : ℚ)
    (frozen_track : Bool) : Bool :=
  decide (5 < position_jumps) || decide ((10000 : ℚ) < bbox_variance) ||
    (decide (1 < bbox_sizes.length) &&
      decide ((0.5 : ℚ) < bbox_size_variance / listMean bbox_sizes)) ||
    decide ((0.25 : ℚ) < center_drift_ratio) ||
    (decide ((0 : ℚ) < frame_diag) &&
      decide ((0.15 : ℚ) < median_center_drift_px / frame_diag)) ||
    frozen_track

/-- The `quality_score` computation of `run_single_test`: the source's
sequence of in-place subtractions from 100 followed by `max(0, ...)`,
collapsed into one expression. -/
def quality_score_calc (position_jumps : ℕ)
    (bbox_variance center_drift_ratio : ℚ)
    (frozen_track likely_wrong_player : Bool) : ℤ :=
  max 0 ((((100 - min ((position_jumps : ℤ) * 5) 30)
      - min (pyInt (bbox_variance / 100)) 30)
      - min (pyInt (center_drift_ratio * 200)) 40)
      - (if frozen_track then 30 else 0)
      - (if likely_wrong_player then 40 else 0))

/-- The loop of `find_closest_box`: `minDist = none` models the initial
`min_dist = float('inf')`, against which every distance compares less. -/
def fcbLoop (tc : ℚ × ℚ) : List Box → Option ℚ → Option Box → Option Box
  | [], _, best => best
  | b :: rest, minDist, best =>
      if (match minDist with
          | none => true
          | some m => decide (distSq (center b) tc < m)) then
        fcbLoop tc rest (some (distSq (center b) tc)) (some b)
      else
        fcbLoop tc rest minDist best

/-- `find_closest_box(boxes, target_bbox)`: `None` on an empty list,
otherwise the box whose center is closest to the target's center, the
first such box winning ties (the loop replaces only on strict `<`). -/
def find_closest_box (boxes : List Box) (target_bbox : Box) : Option Box :=
  if boxes.isEmpty then none
  else fcbLoop (center target_bbox) boxes none none

/-- The per-frame target-matching logic of `run_single_test` (lines
356-385): when no track id is locked and candidates exist, lock onto the
candidate whose bbox `find_closest_box` selects (`np.allclose` modelled
as equality on exact rationals); once locked, follow the first candidate
carrying the locked id. Returns `(matched candidate, new locked id)`. -/
def resolveTarget (target_bbox : Box) (locked : Option ℤ)
    (cands : List Candidate) : Option Candidate × Option ℤ :=
  match locked with
  | none =>
      if cands.isEmpty then (none, none)
      else
        match find_closest_box (cands.map (fun c => c.bbox)) target_bbox with
        | none => (none, none)
        | some cb =>
            match cands.find? (fun c => decide (c.bbox = cb)) with
            | none => (none, none)
            | some c => (some c, some c.track_id)
  | some t => (cands.find? (fun c => decide (c.track_id = t)), some t)

/-- Fixed per-run parameters: the user-selected target box from frame 0
and the video fps (`initial_center` is `center target_bbox`). -/
structure RunParams where
  target_bbox : Box
  fps : ℤ
deriving DecidableEq, Repr

/-- The mutable per-run accumulators of the tracking loop of
`run_single_test` (lines 322-431). -/
structure RunState where
  frame_log : List TrackingFrame
  target_track_id : Option ℤ
  tracked_frames : ℕ
  prev_bbox : Option Box
  position_jumps : ℕ
  confidences : List ℚ
  bbox_centers : List (ℚ × ℚ)
  bbox_sizes : List ℚ
  center_drifts_sq : List ℚ
  id_switches : ℕ
  prev_track_id : Option ℤ
deriving DecidableEq, Repr

/-- Initial run state (all accumulators empty / zero / `None`). -/
def initState : RunState :=
  { frame_log := [], target_track_id := none, tracked_frames := 0,
    prev_bbox := none, position_jumps := 0, confidences := [],
    bbox_centers := [], bbox_sizes := [], center_drifts_sq := [],
    id_switches := 0, prev_track_id := none }

/-- One iteration of the tracking loop of `run_single_test`: resolve the
target among this frame's person candidates, then either record a
tracked frame (updating every accumulator) or a lost frame (resetting
`prev_bbox`).  Drifts are stored squared (see module comment). -/
def runStep (pr : RunParams) (st : RunState) (cands : List Candidate) :
    RunState :=
  let frame_idx := st.frame_log.length
  let t_sec : ℚ := (frame_idx : ℚ) / (pr.fps : ℚ)
  let res := resolveTarget pr.target_bbox st.target_track_id cands
  match res.1 with
  | some c =>
      let ctr := center c.bbox
      { frame_log := st.frame_log ++
          [{ frame := frame_idx, time_sec := t_sec, tracked := true,
             bbox := some c.bbox, confidence := some c.conf,
             track_id := some c.track_id }],
        target_track_id := res.2,
        tracked_frames := st.tracked_frames + 1,
        prev_bbox := some c.bbox,
        position_jumps := st.position_jumps +
          (match st.prev_bbox with
           | some pb => if (40000 : ℚ) < distSq ctr (center pb) then 1 else 0
           | none => 0),
        confidences := st.confidences ++ [c.conf],
        bbox_centers := st.bbox_centers ++ [ctr],
        bbox_sizes := st.bbox_sizes ++ [boxArea c.bbox],
        center_drifts_sq := st.center_drifts_sq ++
          [distSq ctr (center pr.target_bbox)],
        id_switches := st.id_switches +
          (match st.prev_track_id with
           | some pt => if c.track_id ≠ pt then 1 else 0
           | none => 0),
        prev_track_id := some c.track_id }
  | none =>
      { st with
        frame_log := st.frame_log ++
          [{ frame := frame_idx, time_sec := t_sec, tracked := false,
             bbox := none, confidence := none, track_id := none }],
        target_track_id := res.2,
        prev_bbox := none }

/-- The whole tracking loop: fold `runStep` over the per-frame candidate
lists produced by the external tracking stream. -/
def runAll (pr : RunParams) (inputs : List (List Candidate)) : RunState :=
  inputs.foldl (runStep pr) initState

/-- `max_center_drift_px` of a finished run, in squared form. -/
def max_center_drift_sq (st : RunState) : ℚ := maxListQ st.center_drifts_sq

/-- The `frozen_track` flag as computed at the end of `run_single_test`
(line 475), on the squared drift model: `sqrt d < 1 ↔ d < 1`. -/
def frozen_track_run (st : RunState) : Bool :=
  decide (30 < st.frame_log.length) && decide (max_center_drift_sq st < 1)

/- ------------- specification-side predicates and counters ------------- -/

/-- Every element of the list satisfies the boolean predicate. -/
def AllP {α : Type*} (p : α → Bool) (s : List α) : Prop := ∀ a ∈ s, p a = true

/-- `n` is the length of the maximal all-`p` contiguous block starting
at index 0 of `l`. -/
def IsMaxPreOf {α : Type*} (p : α → Bool) (l : List α) (n : ℕ) : Prop :=
  (∃ s u, l = s ++ u ∧ AllP p s ∧ s.length = n) ∧
  (∀ s u, l = s ++ u → AllP p s → s.length ≤ n)

/-- `n` is the length of the maximal all-`p` contiguous block ending at
the last element of `l`. -/
def IsMaxSufOf {α : Type*} (p : α → Bool) (l : List α) (n : ℕ) : Prop :=
  (∃ s t, l = t ++ s ∧ AllP p s ∧ s.length = n) ∧
  (∀ s t, l = t ++ s → AllP p s → s.length ≤ n)

/-- `n` is the length of the longest all-`p` contiguous block anywhere
in `l` (the "longest run of consecutive records" of the specification). -/
def IsMaxRunOf {α : Type*} (p : α → Bool) (l : List α) (n : ℕ) : Prop :=
  (∃ s t u, l = t ++ s ++ u ∧ AllP p s ∧ s.length = n) ∧
  (∀ s t u, l = t ++ s ++ u → AllP p s → s.length ≤ n)

/-- A single-counter abstraction of one streak-loop iteration, counting
elements satisfying `p`: state is `(running max, current streak)`. -/
def runStepB {α : Type*} (p : α → Bool) (mc : ℕ × ℕ) (a : α) : ℕ × ℕ :=
  if p a then (max mc.1 (mc.2 + 1), mc.2 + 1) else (mc.1, 0)

/-- Specification-side: two adjacent records form a position jump when
both are tracked and their centers are more than 200px apart
(squared: 40000). -/
def pairJump (r1 r2 : TrackingFrame) : Bool :=
  r1.tracked && r2.tracked &&
    (match r1.bbox, r2.bbox with
     | some b1, some b2 => decide ((40000 : ℚ) < distSq (center b2) (center b1))
     | _, _ => false)

/-- Specification-side: number of adjacent record pairs that form a
position jump. -/
def jumpCountSpec : List TrackingFrame → ℕ
  | r1 :: r2 :: rest => (if pairJump r1 r2 then 1 else 0) + jumpCountSpec (r2 :: rest)
  | _ => 0

/- ----------------------- concrete demonstration data ----------------------- -/

/-- Demo box with center `(5, 5)`. -/
def demoBoxA : Box := ⟨0, 0, 10, 10⟩

/-- Demo box with center `(55, 5)` (squared distance 2500 from `demoBoxA`). -/
def demoBoxB : Box := ⟨50, 0, 60, 10⟩

/-- Candidate at `demoBoxA` with track id 3. -/
def demoCandA : Candidate := ⟨demoBoxA, 3, 9/10⟩

/-- Candidate at `demoBoxB` with track id 8. -/
def demoCandB : Candidate := ⟨demoBoxB, 8, 8/10⟩

/-- A frame log with tracked pattern `[T, T, F, T, T, F]` at fps 10. -/
def demoLog : List TrackingFrame :=
  [⟨0, 0, true, some demoBoxA, some (9/10), some 3⟩,
   ⟨1, 1/10, true, some demoBoxA, some (9/10), some 3⟩,
   ⟨2, 2/10, false, none, none, none⟩,
   ⟨3, 3/10, true, some demoBoxA, some (9/10), some 3⟩,
   ⟨4, 4/10, true, some demoBoxA, some (9/10), some 3⟩,
   ⟨5, 5/10, false, none, none, none⟩]

/-- Run parameters for the position-jump demonstration. -/
def jumpPr : RunParams := ⟨⟨0, 0, 2, 2⟩, 10⟩

/-- Two frames, each with one candidate (same track id 1), whose centers
are exactly 205px apart (squared distance 42025 > 40000). -/
def jumpInputs : List (List Candidate) :=
  [[⟨⟨0, 0, 2, 2⟩, 1, 1⟩], [⟨⟨205, 0, 207, 2⟩, 1, 9/10⟩]]

/-- Run parameters for the frozen-track demonstration. -/
def frozenPr : RunParams := ⟨⟨0, 0, 2, 2⟩, 1⟩

/-- 31 frames, each with a single candidate exactly at the target box
(drift 0 ≤ 0.5px on every tracked frame). -/
def frozenInputs : List (List Candidate) :=
  List.replicate 31 [⟨⟨0, 0, 2, 2⟩, 1, 1⟩]

/-- Frame-log well-formedness: the record at position `i` has
`frame = i`, is tracked iff it carries a bbox, and carries no
confidence/track id when untracked. -/
abbrev LogInv (log : List TrackingFrame) : Prop :=
  ∀ (i : ℕ) (r : TrackingFrame), log[i]? = some r →
    r.frame = i ∧ (r.tracked = true ↔ r.bbox ≠ none) ∧
    (r.tracked = false → r.confidence = none ∧ r.track_id = none)

/-- Lock/previous-id invariant: no identity switch has been counted and
the previous matched id, when set, equals the locked id. -/
abbrev LockInv (st : RunState) : Prop :=
  st.id_switches = 0 ∧
  (st.prev_track_id = none ∨ st.prev_track_id = st.target_track_id)

/-- Jump-counting invariant: the running counter equals the number of
adjacent tracked pairs more than 200px apart, and `prev_bbox` is the
last record's bbox when that record is tracked, `none` otherwise. -/
abbrev JumpInv (st : RunState) : Prop :=
  st.position_jumps = jumpCountSpec st.frame_log ∧
  ((st.frame_log = [] ∧ st.prev_bbox = none) ∨
   (∃ rl, st.frame_log.getLast? = some rl ∧
      ((rl.tracked = true ∧ st.prev_bbox = rl.bbox) ∨
       (rl.tracked = false ∧ st.prev_bbox = none))))

/-- Drift bookkeeping: the stored (squared) drifts are exactly the
drifts of the logged tracked bboxes, in order. -/
abbrev DriftInv (pr : RunParams) (st : RunState) : Prop :=
  st.center_drifts_sq = st.frame_log.filterMap
    (fun r => r.bbox.map (fun b => distSq (center b) (center pr.target_bbox)))

/- ----------------------------- theorems ----------------------------- -/

/-- Claim C2: `likely_wrong_player` is true iff at least one of the six
listed conditions holds (position_jumps > 5; bbox_variance > 10000;
≥ 2 tracked frames and size-variance/mean(sizes) > 0.5;
center_drift_ratio > 0.25; frame_diag > 0 and median drift ratio > 0.15;
frozen_track), and `quality_score` equals
`max(0, 100 - min(jumps*5,30) - min(int(var/100),30)
- min(int(ratio*200),40) - (30 if frozen) - (40 if likely_wrong))`. -/
theorem c2_wrong_player_and_quality (pj : ℕ) (bv bsv cdr fd med : ℚ)
    (sizes : List ℚ) (fz : Bool) :
    (likely_wrong_player_calc pj bv bsv sizes cdr fd med fz = true ↔
      (5 < pj ∨ (10000 : ℚ) < bv ∨
        (2 ≤ sizes.length ∧ (0.5 : ℚ) < bsv / (sizes.sum / (sizes.length : ℚ))) ∨
        (0.25 : ℚ) < cdr ∨ ((0 : ℚ) < fd ∧ (0.15 : ℚ) < med / fd) ∨ fz = true)) ∧
    (quality_score_calc pj bv cdr fz (likely_wrong_player_calc pj bv bsv sizes cdr fd med fz) =
      max 0 ((((100 - min ((pj : ℤ) * 5) 30)
        - min (pyInt (bv / 100)) 30)
        - min (pyInt (cdr * 200)) 40)
        - (if fz then 30 else 0)
        - (if likely_wrong_player_calc pj bv bsv sizes cdr fd med fz then 40 else 0))) := by
  refine ⟨?_, rfl⟩
  simp only [likely_wrong_player_calc, listMean, Bool.or_eq_true, Bool.and_eq_true,
    decide_eq_true_eq]
  constructor
  · rintro (((((h | h) | ⟨h1, h2⟩) | h) | ⟨h1, h2⟩) | h)
    · exact Or.inl h
    · exact Or.inr (Or.inl h)
    · exact Or.inr (Or.inr (Or.inl ⟨h1, h2⟩))
    · exact Or.inr (Or.inr (Or.inr (Or.inl h)))
    · exact Or.inr (Or.inr (Or.inr (Or.inr (Or.inl ⟨h1, h2⟩))))
    · exact Or.inr (Or.inr (Or.inr (Or.inr (Or.inr h))))
  · rintro (h | h | ⟨h1, h2⟩ | h | ⟨h1, h2⟩ | h)
    · exact Or.inl (Or.inl (Or.inl (Or.inl (Or.inl h))))
    · exact Or.inl (Or.inl (Or.inl (Or.inl (Or.inr h))))
    · exact Or.inl (Or.inl (Or.inl (Or.inr ⟨h1, h2⟩)))
    · exact Or.inl (Or.inl (Or.inr h))
    · exact Or.inl (Or.inr ⟨h1, h2⟩)
    · exact Or.inr h

/-- Claim C8: for any nonnegative accumulated metrics (as produced by a
real run), `quality_score` lies in `[0, 100]`. -/
theorem c8_quality_score_bounds (pj : ℕ) (bv cdr : ℚ) (fz lw : Bool)
    (hbv : 0 ≤ bv) (hcdr : 0 ≤ cdr) :
    0 ≤ quality_score_calc pj bv cdr fz lw ∧
    quality_score_calc pj bv cdr fz lw ≤ 100 := by
  have h1 : (0 : ℤ) ≤ min ((pj : ℤ) * 5) 30 := le_min (by positivity) (by norm_num)
  have h2 : (0 : ℤ) ≤ min (pyInt (bv / 100)) 30 := by
    refine le_min ?_ (by norm_num)
    unfold pyInt
    rw [if_pos (by positivity)]
    exact Int.floor_nonneg.mpr (by positivity)
  have h3 : (0 : ℤ) ≤ min (pyInt (cdr * 200)) 40 := by
    refine le_min ?_ (by norm_num)
    rw [pyInt, if_pos (by positivity)]
    exact Int.floor_nonneg.mpr (by positivity)
  have h4 : (0 : ℤ) ≤ (if fz then (30 : ℤ) else 0) := by cases fz <;> norm_num
  have h5 : (0 : ℤ) ≤ (if lw then (40 : ℤ) else 0) := by cases lw <;> norm_num
  unfold quality_score_calc
  exact ⟨le_max_left 0 _, max_le (by norm_num) (by linarith)⟩

/-- Witness for C8 at concrete metrics. -/
theorem c8_witness :
    0 ≤ quality_score_calc 0 0 0 false false ∧
    quality_score_calc 0 0 0 false false ≤ 100 :=
  c8_quality_score_bounds 0 0 0 false false le_rfl le_rfl

/-- Claim C6: `summarize_frame_log` fails exactly when `fps ≤ 0`
(whatever the frame log, including the empty one), and returns normally
for every `fps > 0` and every frame log. -/
theorem c6_fps_validation (l : List TrackingFrame) (fps : ℤ) :
    (fps ≤ 0 → summarize_frame_log l fps = Except.error "fps must be positive") ∧
    (0 < fps → ∃ s, summarize_frame_log l fps = Except.ok s) := by
  constructor
  · intro h
    rw [summarize_frame_log, if_pos h]
  · intro h
    exact ⟨_, by rw [summarize_frame_log, if_neg (by omega)]⟩

/-- Witness for C6: `fps = 0` on the empty log raises; `fps = 10` on a
nonempty log succeeds. -/
theorem c6_witness :
    summarize_frame_log [] 0 = Except.error "fps must be positive" ∧
    ∃ s, summarize_frame_log demoLog 10 = Except.ok s :=
  ⟨(c6_fps_validation [] 0).1 (by norm_num),
   (c6_fps_validation demoLog 10).2 (by norm_num)⟩

/-- Injectivity of appending a single element on the right. -/
theorem concat_inj {α : Type*} {l₁ l₂ : List α} {a b : α}
    (h : l₁ ++ [a] = l₂ ++ [b]) : l₁ = l₂ ∧ a = b := by
  obtain ⟨h1, h2⟩ := List.append_inj' h rfl
  exact ⟨h1, by injection h2⟩

/-- `AllP` distributes over append. -/
theorem allP_append {α : Type*} {p : α → Bool} {s t : List α} :
    AllP p (s ++ t) ↔ AllP p s ∧ AllP p t := by
  simp [AllP, List.mem_append, or_imp, forall_and]

/-- The single-counter streak fold computes, in its second component,
the maximal all-`p` block ending at the end of the list and, in its
first component, the longest all-`p` block anywhere in the list. -/
theorem runFold_char {α : Type*} (p : α → Bool) (l : List α) :
    IsMaxSufOf p l (l.foldl (runStepB p) (0, 0)).2 ∧
    IsMaxRunOf p l (l.foldl (runStepB p) (0, 0)).1 := by
  induction l using List.reverseRecOn with
  | nil =>
      refine ⟨⟨⟨[], [], rfl, by simp [AllP], rfl⟩, ?_⟩,
              ⟨⟨[], [], [], rfl, by simp [AllP], rfl⟩, ?_⟩⟩
      · intro s t h _
        obtain ⟨-, hs⟩ := List.append_eq_nil.mp h.symm
        simp [hs]
      · intro s t u h _
        obtain ⟨hts, -⟩ := List.append_eq_nil.mp h.symm
        obtain ⟨-, hs⟩ := List.append_eq_nil.mp hts
        simp [hs]
  | append_singleton l a ih =>
      obtain ⟨⟨⟨s0, t0, hdec0, hall0, hlen0⟩, hsufb⟩, ⟨hrune, hrunb⟩⟩ := ih
      rw [List.foldl_append, List.foldl_cons, List.foldl_nil]
      cases hpa : p a with
      | true =>
          simp only [runStepB, hpa, if_true]
          have hsufe' : ∃ s t, l ++ [a] = t ++ s ∧ AllP p s ∧
              s.length = (l.foldl (runStepB p) (0, 0)).2 + 1 := by
            refine ⟨s0 ++ [a], t0, ?_, ?_, by simp [hlen0]⟩
            · rw [hdec0, List.append_assoc]
            · exact allP_append.mpr ⟨hall0, by simp [AllP, hpa]⟩
          have hsufb' : ∀ s t, l ++ [a] = t ++ s → AllP p s →
              s.length ≤ (l.foldl (runStepB p) (0, 0)).2 + 1 := by
            intro s t h hall
            rcases List.eq_nil_or_concat' s with rfl | ⟨s', x, rfl⟩
            · simp
            · simp only [← List.append_assoc] at h
              obtain ⟨hts, -⟩ := concat_inj h
              obtain ⟨hs', -⟩ := allP_append.mp hall
              have := hsufb s' t hts hs'
              simp only [List.length_append, List.length_cons, List.length_nil]
              omega
          refine ⟨⟨hsufe', hsufb'⟩, ?_, ?_⟩
          · rcases Nat.le_total (l.foldl (runStepB p) (0, 0)).1
                ((l.foldl (runStepB p) (0, 0)).2 + 1) with hle | hle
            · rw [max_eq_right hle]
              obtain ⟨s, t, hdec, hall, hlen⟩ := hsufe'
              exact ⟨s, t, [], by rw [hdec, List.append_nil], hall, hlen⟩
            · rw [max_eq_left hle]
              obtain ⟨s1, t1, u1, hdec1, hall1, hlen1⟩ := hrune
              exact ⟨s1, t1, u1 ++ [a],
                by rw [hdec1]; simp [List.append_assoc], hall1, hlen1⟩
          · intro s t u h hall
            rcases List.eq_nil_or_concat' u with rfl | ⟨u', x, rfl⟩
            · rw [List.append_nil] at h
              exact le_trans (hsufb' s t h hall) (le_max_right _ _)
            · simp only [← List.append_assoc] at h
              obtain ⟨htsu, -⟩ := concat_inj h
              exact le_trans (hrunb s t u' htsu hall) (le_max_left _ _)
      | false =>
          simp only [runStepB, hpa, if_false]
          have hsufb' : ∀ s t, l ++ [a] = t ++ s → AllP p s → s.length ≤ 0 := by
            intro s t h hall
            rcases List.eq_nil_or_concat' s with rfl | ⟨s', x, rfl⟩
            · simp
            · simp only [← List.append_assoc] at h
              obtain ⟨-, hax⟩ := concat_inj h
              obtain ⟨-, hx⟩ := allP_append.mp hall
              have hcontra : p a = true := by
                rw [hax]
                exact hx x (by simp)
              rw [hpa] at hcontra
              cases hcontra
          refine ⟨⟨⟨[], l ++ [a], by simp, by simp [AllP], rfl⟩, hsufb'⟩, ?_, ?_⟩
          · obtain ⟨s1, t1, u1, hdec1, hall1, hlen1⟩ := hrune
            exact ⟨s1, t1, u1 ++ [a],
              by rw [hdec1]; simp [List.append_assoc], hall1, hlen1⟩
          · intro s t u h hall
            rcases List.eq_nil_or_concat' u with rfl | ⟨u', x, rfl⟩
            · have := hsufb' s t (by rw [h, List.append_nil]) hall
              omega
            · simp only [← List.append_assoc] at h
              obtain ⟨htsu, -⟩ := concat_inj h
              exact hrunb s t u' htsu hall

/-- The tracked-streak components of the four-counter streak loop agree
with the single-counter fold for the predicate `tracked`. -/
theorem streakFold_proj_tr (l : List TrackingFrame) :
    ∀ s : StreakState,
      (l.foldl (fun s r => streakStep s r.tracked) s).maxTr =
        (l.foldl (runStepB (fun r => r.tracked)) (s.maxTr, s.curTr)).1 ∧
      (l.foldl (fun s r => streakStep s r.tracked) s).curTr =
        (l.foldl (runStepB (fun r => r.tracked)) (s.maxTr, s.curTr)).2 := by
  induction l with
  | nil => intro s; exact ⟨rfl, rfl⟩
  | cons r rest ih =>
      intro s
      have hstep : ((streakStep s r.tracked).maxTr, (streakStep s r.tracked).curTr)
          = runStepB (fun r => r.tracked) (s.maxTr, s.curTr) r := by
        cases hr : r.tracked <;> simp [streakStep, runStepB, hr, Nat.max_zero]
      obtain ⟨ih1, ih2⟩ := ih (streakStep s r.tracked)
      simp only [List.foldl_cons]
      rw [ih1, ih2, hstep]
      exact ⟨rfl, rfl⟩

/-- The loss-streak components of the four-counter streak loop agree
with the single-counter fold for the predicate `not tracked`. -/
theorem streakFold_proj_loss (l : List TrackingFrame) :
    ∀ s : StreakState,
      (l.foldl (fun s r => streakStep s r.tracked) s).maxLoss =
        (l.foldl (runStepB (fun r => !r.tracked)) (s.maxLoss, s.curLoss)).1 ∧
      (l.foldl (fun s r => streakStep s r.tracked) s).curLoss =
        (l.foldl (runStepB (fun r => !r.tracked)) (s.maxLoss, s.curLoss)).2 := by
  induction l with
  | nil => intro s; exact ⟨rfl, rfl⟩
  | cons r rest ih =>
      intro s
      have hstep : ((streakStep s r.tracked).maxLoss, (streakStep s r.tracked).curLoss)
          = runStepB (fun r => !r.tracked) (s.maxLoss, s.curLoss) r := by
        cases hr : r.tracked <;> simp [streakStep, runStepB, hr, Nat.max_zero]
      obtain ⟨ih1, ih2⟩ := ih (streakStep s r.tracked)
      simp only [List.foldl_cons]
      rw [ih1, ih2, hstep]
      exact ⟨rfl, rfl⟩

/-- The break-at-first-loss loop computes the length of the maximal
all-tracked block starting at index 0. -/
theorem continuousFromStart_char (l : List TrackingFrame) :
    IsMaxPreOf (fun r => r.tracked) l (continuousFromStart l) := by
  induction l with
  | nil =>
      refine ⟨⟨[], [], rfl, by simp [AllP], rfl⟩, ?_⟩
      intro s u h _
      obtain ⟨hs, -⟩ := List.append_eq_nil.mp h.symm
      simp [hs]
  | cons r rest ih =>
      obtain ⟨⟨s0, u0, hdec0, hall0, hlen0⟩, ihb⟩ := ih
      cases hr : r.tracked with
      | true =>
          refine ⟨⟨r :: s0, u0, by rw [hdec0]; rfl, ?_, ?_⟩, ?_⟩
          · intro x hx
            rcases List.mem_cons.mp hx with rfl | hx
            · exact hr
            · exact hall0 x hx
          · simp [continuousFromStart, hr, hlen0]
          · intro s u h hall
            cases s with
            | nil => simp
            | cons x s' =>
                rw [List.cons_append] at h
                injection h with h1 h2
                have hs' : AllP (fun r => r.tracked) s' :=
                  fun y hy => hall y (List.mem_cons_of_mem x hy)
                have := ihb s' u h2 hs'
                simp only [continuousFromStart, hr, if_true, List.length_cons]
                omega
      | false =>
          refine ⟨⟨[], r :: rest, rfl, by simp [AllP], by simp [continuousFromStart, hr]⟩, ?_⟩
          intro s u h hall
          cases s with
          | nil => simp
          | cons x s' =>
              rw [List.cons_append] at h
              injection h with h1 h2
              have : r.tracked = true := by
                rw [h1]
                exact hall x (by simp)
              rw [hr] at this
              cases this

/-- The first-loss loop returns the `time_sec` of the first untracked
record, `none` when every record is tracked. -/
theorem firstLossTime_eq (l : List TrackingFrame) :
    firstLossTime l = (l.find? (fun r => !r.tracked)).map (fun r => r.time_sec) := by
  induction l with
  | nil => rfl
  | cons r rest ih =>
      cases hr : r.tracked
      · rw [List.find?_cons_of_pos _ (by simp [hr])]
        simp [firstLossTime, hr]
      · rw [List.find?_cons_of_neg _ (by simp [hr])]
        simp [firstLossTime, hr, ih]

/-- Unfolding of `summarize_frame_log` in its non-error branch. -/
theorem summarize_ok (l : List TrackingFrame) (fps : ℤ) (h : ¬ fps ≤ 0) :
    summarize_frame_log l fps = Except.ok
      { continuous_from_start_frames := continuousFromStart l
        continuous_from_start_sec := (continuousFromStart l : ℚ) / (fps : ℚ)
        first_loss_time_sec := firstLossTime l
        max_consecutive_loss_frames :=
          (l.foldl (fun s r => streakStep s r.tracked) ⟨0, 0, 0, 0⟩).maxLoss
        max_consecutive_loss_sec :=
          ((l.foldl (fun s r => streakStep s r.tracked) ⟨0, 0, 0, 0⟩).maxLoss : ℚ) / (fps : ℚ)
        max_consecutive_tracked_frames :=
          (l.foldl (fun s r => streakStep s r.tracked) ⟨0, 0, 0, 0⟩).maxTr
        longest_tracked_streak_sec :=
          ((l.foldl (fun s r => streakStep s r.tracked) ⟨0, 0, 0, 0⟩).maxTr : ℚ) / (fps : ℚ) } := by
  rw [summarize_frame_log, if_neg h]

/-- Claim C1: for every frame log and `fps > 0`, `summarize_frame_log`
returns the length of the maximal all-tracked block starting at index 0
(and that count divided by fps), the `time_sec` of the first untracked
record (`none` if all tracked), and the longest runs of consecutive
untracked / tracked records anywhere in the log (and those counts
divided by fps); the empty log yields all zeros and `none`. -/
theorem c1_summarize_frame_log (l : List TrackingFrame) (fps : ℤ) (hfps : 0 < fps) :
    ∃ s, summarize_frame_log l fps = Except.ok s ∧
      IsMaxPreOf (fun r => r.tracked) l s.continuous_from_start_frames ∧
      s.continuous_from_start_sec = (s.continuous_from_start_frames : ℚ) / (fps : ℚ) ∧
      s.first_loss_time_sec = (l.find? (fun r => !r.tracked)).map (fun r => r.time_sec) ∧
      IsMaxRunOf (fun r => !r.tracked) l s.max_consecutive_loss_frames ∧
      IsMaxRunOf (fun r => r.tracked) l s.max_consecutive_tracked_frames ∧
      s.max_consecutive_loss_sec = (s.max_consecutive_loss_frames : ℚ) / (fps : ℚ) ∧
      s.longest_tracked_streak_sec = (s.max_consecutive_tracked_frames : ℚ) / (fps : ℚ) ∧
      (l = [] → s = ⟨0, 0, none, 0, 0, 0, 0⟩) := by
  refine ⟨_, summarize_ok l fps (by omega), continuousFromStart_char l, rfl,
    firstLossTime_eq l, ?_, ?_, rfl, rfl, ?_⟩
  · have hp := (streakFold_proj_loss l ⟨0, 0, 0, 0⟩).1
    have h := (runFold_char (fun r => !r.tracked) l).2
    show IsMaxRunOf (fun r => !r.tracked) l
      (l.foldl (fun s r => streakStep s r.tracked) ⟨0, 0, 0, 0⟩).maxLoss
    rw [hp]
    exact h
  · have hp := (streakFold_proj_tr l ⟨0, 0, 0, 0⟩).1
    have h := (runFold_char (fun r => r.tracked) l).2
    show IsMaxRunOf (fun r => r.tracked) l
      (l.foldl (fun s r => streakStep s r.tracked) ⟨0, 0, 0, 0⟩).maxTr
    rw [hp]
    exact h
  · rintro rfl
    simp [continuousFromStart, firstLossTime, List.foldl_nil]

/-- Witness for C1 at the `[T, T, F, T, T, F]` log and fps 10. -/
theorem c1_witness :
    ∃ s, summarize_frame_log demoLog 10 = Except.ok s ∧
      IsMaxPreOf (fun r => r.tracked) demoLog s.continuous_from_start_frames ∧
      s.continuous_from_start_sec = (s.continuous_from_start_frames : ℚ) / ((10 : ℤ) : ℚ) ∧
      s.first_loss_time_sec = (demoLog.find? (fun r => !r.tracked)).map (fun r => r.time_sec) ∧
      IsMaxRunOf (fun r => !r.tracked) demoLog s.max_consecutive_loss_frames ∧
      IsMaxRunOf (fun r => r.tracked) demoLog s.max_consecutive_tracked_frames ∧
      s.max_consecutive_loss_sec = (s.max_consecutive_loss_frames : ℚ) / ((10 : ℤ) : ℚ) ∧
      s.longest_tracked_streak_sec = (s.max_consecutive_tracked_frames : ℚ) / ((10 : ℤ) : ℚ) ∧
      (demoLog = [] → s = ⟨0, 0, none, 0, 0, 0, 0⟩) :=
  c1_summarize_frame_log demoLog 10 (by norm_num)

/-- Claim C9: the longest tracked streak anywhere in the log is at least
the tracked streak starting at index 0. -/
theorem c9_max_tracked_ge_start (l : List TrackingFrame) (fps : ℤ) (hfps : 0 < fps) :
    ∃ s, summarize_frame_log l fps = Except.ok s ∧
      s.continuous_from_start_frames ≤ s.max_consecutive_tracked_frames := by
  refine ⟨_, summarize_ok l fps (by omega), ?_⟩
  show continuousFromStart l ≤
    (l.foldl (fun s r => streakStep s r.tracked) ⟨0, 0, 0, 0⟩).maxTr
  obtain ⟨⟨s0, u0, hdec, hall, hlen⟩, -⟩ := continuousFromStart_char l
  have hb := (runFold_char (fun r => r.tracked) l).2.2
  have hp := (streakFold_proj_tr l ⟨0, 0, 0, 0⟩).1
  rw [hp, ← hlen]
  exact hb s0 [] u0 (by rw [hdec]; rfl) hall

/-- Witness for C9 at the `[T, T, F, T, T, F]` log and fps 10. -/
theorem c9_witness :
    ∃ s, summarize_frame_log demoLog 10 = Except.ok s ∧
      s.continuous_from_start_frames ≤ s.max_consecutive_tracked_frames :=
  c9_max_tracked_ge_start demoLog 10 (by norm_num)

/-- Invariant of the `find_closest_box` loop once the running minimum is
finite: the result is the incoming best box when nothing in the
remaining list strictly beats it, otherwise the first strict improver of
the eventual minimum, with strictly larger distances before the winner
and no smaller distance after it. -/
theorem fcbLoop_char (tc : ℚ × ℚ) (l : List Box) :
    ∀ b : Box,
      ∃ r, fcbLoop tc l (some (distSq (center b) tc)) (some b) = some r ∧
        ((r = b ∧ ∀ x ∈ l, distSq (center b) tc ≤ distSq (center x) tc) ∨
         (∃ bpre bsuf, l = bpre ++ r :: bsuf ∧
            distSq (center r) tc < distSq (center b) tc ∧
            (∀ x ∈ bpre, distSq (center r) tc < distSq (center x) tc) ∧
            (∀ x ∈ bsuf, distSq (center r) tc ≤ distSq (center x) tc))) := by
  induction l with
  | nil => intro b; exact ⟨b, rfl, Or.inl ⟨rfl, by simp⟩⟩
  | cons x rest ih =>
      intro b
      by_cases hx : distSq (center x) tc < distSq (center b) tc
      · obtain ⟨r, hr, hcase⟩ := ih x
        refine ⟨r, ?_, ?_⟩
        · rw [show fcbLoop tc (x :: rest) (some (distSq (center b) tc)) (some b)
              = fcbLoop tc rest (some (distSq (center x) tc)) (some x) from by
            simp [fcbLoop, hx]]
          exact hr
        · rcases hcase with ⟨rfl, hall⟩ | ⟨bpre, bsuf, hsplit, hlt, hpre2, hsuf2⟩
          · exact Or.inr ⟨[], rest, by simp, hx, by simp, hall⟩
          · refine Or.inr ⟨x :: bpre, bsuf, by rw [hsplit]; rfl,
              lt_trans hlt hx, ?_, hsuf2⟩
            intro y hy
            rcases List.mem_cons.mp hy with rfl | hy
            · exact hlt
            · exact hpre2 y hy
      · obtain ⟨r, hr, hcase⟩ := ih b
        refine ⟨r, ?_, ?_⟩
        · rw [show fcbLoop tc (x :: rest) (some (distSq (center b) tc)) (some b)
              = fcbLoop tc rest (some (distSq (center b) tc)) (some b) from by
            simp [fcbLoop, hx]]
          exact hr
        · rcases hcase with ⟨rfl, hall⟩ | ⟨bpre, bsuf, hsplit, hlt, hpre2, hsuf2⟩
          · refine Or.inl ⟨rfl, ?_⟩
            intro y hy
            rcases List.mem_cons.mp hy with rfl | hy
            · exact not_lt.mp hx
            · exact hall y hy
          · refine Or.inr ⟨x :: bpre, bsuf, by rw [hsplit]; rfl, hlt, ?_, hsuf2⟩
            intro y hy
            rcases List.mem_cons.mp hy with rfl | hy
            · exact lt_of_lt_of_le hlt (not_lt.mp hx)
            · exact hpre2 y hy

/-- `find_closest_box` on a nonempty list returns the box of minimal
center distance to the target, the first such box in input order. -/
theorem find_closest_box_char (target_bbox : Box) (boxes : List Box)
    (h : boxes ≠ []) :
    ∃ r bpre bsuf, find_closest_box boxes target_bbox = some r ∧
      boxes = bpre ++ r :: bsuf ∧
      (∀ x ∈ boxes, distSq (center r) (center target_bbox) ≤
        distSq (center x) (center target_bbox)) ∧
      (∀ x ∈ bpre, distSq (center r) (center target_bbox) <
        distSq (center x) (center target_bbox)) := by
  cases boxes with
  | nil => exact absurd rfl h
  | cons b0 rest =>
    have hstep : find_closest_box (b0 :: rest) target_bbox
        = fcbLoop (center target_bbox) rest
            (some (distSq (center b0) (center target_bbox))) (some b0) := by
      simp [find_closest_box, fcbLoop]
    obtain ⟨r, hr, hcase⟩ := fcbLoop_char (center target_bbox) rest b0
    rcases hcase with ⟨rfl, hall⟩ | ⟨bpre, bsuf, hsplit, hlt, hpre2, hsuf2⟩
    · refine ⟨r, [], rest, by rw [hstep]; exact hr, rfl, ?_, by simp⟩
      intro y hy
      rcases List.mem_cons.mp hy with rfl | hy
      · exact le_refl _
      · exact hall y hy
    · refine ⟨r, b0 :: bpre, bsuf, by rw [hstep]; exact hr,
        by rw [hsplit]; rfl, ?_, ?_⟩
      · intro y hy
        rcases List.mem_cons.mp hy with rfl | hy
        · exact le_of_lt hlt
        · rw [hsplit] at hy
          rcases List.mem_append.mp hy with hy | hy
          · exact le_of_lt (hpre2 y hy)
          · rcases List.mem_cons.mp hy with rfl | hy
            · exact le_refl _
            · exact hsuf2 y hy
      · intro y hy
        rcases List.mem_cons.mp hy with rfl | hy
        · exact hlt
        · exact hpre2 y hy

/-- A decomposition of a mapped list lifts to a decomposition of the
original list. -/
theorem map_decomp {α β : Type*} (f : α → β) :
    ∀ (p : List β) (l : List α) (b : β) (q : List β), l.map f = p ++ b :: q →
      ∃ p2 x q2, l = p2 ++ x :: q2 ∧ p2.map f = p ∧ f x = b ∧ q2.map f = q := by
  intro p
  induction p with
  | nil =>
      intro l b q h
      cases l with
      | nil => simp at h
      | cons x l2 =>
          rw [List.map_cons, List.nil_append] at h
          injection h with h1 h2
          exact ⟨[], x, l2, rfl, rfl, h1, h2⟩
  | cons y p2 ih =>
      intro l b q h
      cases l with
      | nil => simp at h
      | cons z l2 =>
          rw [List.map_cons, List.cons_append] at h
          injection h with h1 h2
          obtain ⟨p3, x, q3, hdec, hmap, hfx, hq⟩ := ih l2 b q h2
          exact ⟨z :: p3, x, q3, by rw [hdec]; rfl,
            by rw [List.map_cons, hmap, h1], hfx, hq⟩

/-- `find?` returns the head of the suffix when the predicate fails on
the whole first part and holds at the head. -/
theorem find?_first {α : Type*} (p : α → Bool) :
    ∀ (l₁ : List α) (a : α) (l₂ : List α), (∀ x ∈ l₁, p x = false) → p a = true →
      (l₁ ++ a :: l₂).find? p = some a := by
  intro l₁
  induction l₁ with
  | nil =>
      intro a l₂ _ ha
      rw [List.nil_append, List.find?_cons_of_pos _ ha]
  | cons x rest ih =>
      intro a l₂ hall ha
      rw [List.cons_append, List.find?_cons_of_neg _ (by simp [hall x (by simp)])]
      exact ih a l₂ (fun y hy => hall y (List.mem_cons_of_mem x hy)) ha

/-- Claim C3: while no track id is locked and candidates exist, the step
matches the candidate whose center is Euclidean-closest to the target
box's center — the first candidate attaining the minimum in input order
— and locks its id; once locked, the lock is never reassigned, each
frame matches the first candidate (input order) carrying the locked id,
and only a candidate with exactly the locked id is ever returned. -/
theorem c3_track_target_resolver (target_bbox : Box) (cands : List Candidate) :
    (cands ≠ [] →
      ∃ c cpre csuf,
        (resolveTarget target_bbox none cands).1 = some c ∧
        (resolveTarget target_bbox none cands).2 = some c.track_id ∧
        cands = cpre ++ c :: csuf ∧
        (∀ x ∈ cands, distSq (center c.bbox) (center target_bbox) ≤
          distSq (center x.bbox) (center target_bbox)) ∧
        (∀ x ∈ cpre, distSq (center c.bbox) (center target_bbox) <
          distSq (center x.bbox) (center target_bbox))) ∧
    (∀ t : ℤ,
      (resolveTarget target_bbox (some t) cands).2 = some t ∧
      (resolveTarget target_bbox (some t) cands).1 =
        cands.find? (fun c => decide (c.track_id = t)) ∧
      (∀ c, (resolveTarget target_bbox (some t) cands).1 = some c →
        c.track_id = t)) := by
  constructor
  · intro hne
    have hb : cands.map (fun c => c.bbox) ≠ [] := by
      simpa using hne
    obtain ⟨r, bpre, bsuf, hfcb, hsplit, hmin, hstrict⟩ :=
      find_closest_box_char target_bbox (cands.map (fun c => c.bbox)) hb
    obtain ⟨cpre, c, csuf, hdec, hmapF, hfc, hmapS⟩ :=
      map_decomp (fun c => c.bbox) bpre cands r bsuf hsplit
    have hfind : cands.find? (fun z => decide (z.bbox = r)) = some c := by
      rw [hdec]
      refine find?_first _ cpre c csuf ?_ (by simp [hfc])
      intro y hy
      rw [decide_eq_false_iff_not]
      intro hcon
      have hyB : y.bbox ∈ bpre := by
        rw [← hmapF]
        exact List.mem_map_of_mem _ hy
      have hlt := hstrict y.bbox hyB
      rw [hcon] at hlt
      exact lt_irrefl _ hlt
    have hres : resolveTarget target_bbox none cands = (some c, some c.track_id) := by
      rw [resolveTarget]
      rw [if_neg (by simpa [List.isEmpty_iff] using hne)]
      rw [hfcb]
      show (match cands.find? (fun z => decide (z.bbox = r)) with
            | none => ((none : Option Candidate), (none : Option ℤ))
            | some z => (some z, some z.track_id)) = (some c, some c.track_id)
      rw [hfind]
    refine ⟨c, cpre, csuf, by rw [hres], by rw [hres], hdec, ?_, ?_⟩
    · intro x hx
      have hxB : x.bbox ∈ cands.map (fun c => c.bbox) :=
        List.mem_map_of_mem _ hx
      rw [hfc]
      exact hmin x.bbox hxB
    · intro x hx
      have hxB : x.bbox ∈ bpre := by
        rw [← hmapF]
        exact List.mem_map_of_mem _ hx
      rw [hfc]
      exact hstrict x.bbox hxB
  · intro t
    refine ⟨rfl, rfl, ?_⟩
    intro c hc
    have hc2 : cands.find? (fun z => decide (z.track_id = t)) = some c := hc
    have hp := List.find?_some hc2
    exact of_decide_eq_true hp

/-- Witness for C3: with the target at `demoBoxA` and candidates
`[demoCandB, demoCandA]` (distances 2500 and 0), the closer `demoCandA`
is locked; with a foreign id 7 locked, the lock is preserved. -/
theorem c3_witness :
    (∃ c cpre csuf,
        (resolveTarget demoBoxA none [demoCandB, demoCandA]).1 = some c ∧
        (resolveTarget demoBoxA none [demoCandB, demoCandA]).2 = some c.track_id ∧
        [demoCandB, demoCandA] = cpre ++ c :: csuf ∧
        (∀ x ∈ [demoCandB, demoCandA],
          distSq (center c.bbox) (center demoBoxA) ≤
            distSq (center x.bbox) (center demoBoxA)) ∧
        (∀ x ∈ cpre,
          distSq (center c.bbox) (center demoBoxA) <
            distSq (center x.bbox) (center demoBoxA))) ∧
    (resolveTarget demoBoxA (some 7) [demoCandB, demoCandA]).2 = some 7 :=
  ⟨(c3_track_target_resolver demoBoxA [demoCandB, demoCandA]).1 (by simp),
   ((c3_track_target_resolver demoBoxA [demoCandB, demoCandA]).2 7).1⟩

/-- A locked track id survives any frame unchanged. -/
theorem resolveTarget_snd_locked (tb : Box) (t : ℤ) (cands : List Candidate) :
    (resolveTarget tb (some t) cands).2 = some t := rfl

/-- A candidate returned by `find?` on the locked-id predicate carries
exactly the locked id. -/
theorem find?_track_id_eq {t : ℤ} {cands : List Candidate} {c : Candidate}
    (h : cands.find? (fun z => decide (z.track_id = t)) = some c) :
    c.track_id = t := by
  have hp := List.find?_some h
  exact of_decide_eq_true hp

/-- With no lock, the resolver either reports no match and leaves the
lock unset, or matches some candidate and locks that candidate's id. -/
theorem resolveTarget_none_cases (tb : Box) (cands : List Candidate) :
    resolveTarget tb none cands = (none, none) ∨
    ∃ c, resolveTarget tb none cands = (some c, some c.track_id) := by
  rw [resolveTarget]
  by_cases he : cands.isEmpty
  · rw [if_pos he]
    exact Or.inl rfl
  · rw [if_neg he]
    cases hf : find_closest_box (cands.map (fun c => c.bbox)) tb with
    | none => exact Or.inl rfl
    | some cb =>
        show (match cands.find? (fun c => decide (c.bbox = cb)) with
              | none => ((none : Option Candidate), (none : Option ℤ))
              | some c => (some c, some c.track_id)) = (none, none) ∨
          ∃ z, (match cands.find? (fun c => decide (c.bbox = cb)) with
              | none => ((none : Option Candidate), (none : Option ℤ))
              | some c => (some c, some c.track_id)) = (some z, some z.track_id)
        cases hfind : cands.find? (fun c => decide (c.bbox = cb)) with
        | none => exact Or.inl rfl
        | some z => exact Or.inr ⟨z, rfl⟩

/-- Whenever the resolver returns a match, the new lock is exactly the
matched candidate's track id. -/
theorem resolveTarget_lock_of_match (tb : Box) (lk : Option ℤ)
    (cands : List Candidate) (c : Candidate)
    (h : (resolveTarget tb lk cands).1 = some c) :
    (resolveTarget tb lk cands).2 = some c.track_id := by
  cases lk with
  | some t =>
      have hc2 : cands.find? (fun z => decide (z.track_id = t)) = some c := h
      have ht : c.track_id = t := find?_track_id_eq hc2
      show some t = some c.track_id
      rw [ht]
  | none =>
      rcases resolveTarget_none_cases tb cands with hcase | ⟨z, hcase⟩
      · rw [hcase] at h
        cases h
      · rw [hcase] at h ⊢
        have h2 : some z = some c := h
        injection h2 with hzc
        show some z.track_id = some c.track_id
        rw [hzc]

/-- When the resolver reports no match with no lock set, the lock stays
unset. -/
theorem resolveTarget_none_of_no_match (tb : Box) (cands : List Candidate)
    (h : (resolveTarget tb none cands).1 = none) :
    (resolveTarget tb none cands).2 = none := by
  rcases resolveTarget_none_cases tb cands with hcase | ⟨z, hcase⟩
  · rw [hcase]
  · rw [hcase] at h
    simp at h

/-- Folding a step function preserves any invariant preserved by the
step. -/
theorem foldl_inv {σ τ : Type*} (f : σ → τ → σ) (P : σ → Prop)
    (hstep : ∀ s t, P s → P (f s t)) :
    ∀ (l : List τ) (s : σ), P s → P (l.foldl f s) := by
  intro l
  induction l with
  | nil => intro s hs; exact hs
  | cons x rest ih => intro s hs; exact ih (f s x) (hstep s x hs)

/-- Appending one well-formed record with the next index preserves
`LogInv`. -/
theorem logInv_append (log : List TrackingFrame) (r : TrackingFrame)
    (hlog : LogInv log) (hf : r.frame = log.length)
    (h1 : r.tracked = true ↔ r.bbox ≠ none)
    (h2 : r.tracked = false → r.confidence = none ∧ r.track_id = none) :
    LogInv (log ++ [r]) := by
  intro i x hx
  by_cases hi : i < log.length
  · rw [List.getElem?_append_left hi] at hx
    exact hlog i x hx
  · obtain ⟨hlt, -⟩ := List.getElem?_eq_some.mp hx
    rw [List.length_append, List.length_cons, List.length_nil] at hlt
    have hieq : i = log.length := by omega
    rw [hieq, List.getElem?_concat_length] at hx
    injection hx with hx2
    rw [← hx2, hieq]
    exact ⟨hf, h1, h2⟩

/-- Unfolding of `runStep` when the resolver matched candidate `c`. -/
theorem runStep_some_eq (pr : RunParams) (st : RunState) (cands : List Candidate)
    (c : Candidate)
    (h : (resolveTarget pr.target_bbox st.target_track_id cands).1 = some c) :
    runStep pr st cands =
      { frame_log := st.frame_log ++
          [{ frame := st.frame_log.length,
             time_sec := (st.frame_log.length : ℚ) / (pr.fps : ℚ),
             tracked := true, bbox := some c.bbox, confidence := some c.conf,
             track_id := some c.track_id }],
        target_track_id := (resolveTarget pr.target_bbox st.target_track_id cands).2,
        tracked_frames := st.tracked_frames + 1,
        prev_bbox := some c.bbox,
        position_jumps := st.position_jumps +
          (match st.prev_bbox with
           | some pb => if (40000 : ℚ) < distSq (center c.bbox) (center pb)
               then 1 else 0
           | none => 0),
        confidences := st.confidences ++ [c.conf],
        bbox_centers := st.bbox_centers ++ [center c.bbox],
        bbox_sizes := st.bbox_sizes ++ [boxArea c.bbox],
        center_drifts_sq := st.center_drifts_sq ++
          [distSq (center c.bbox) (center pr.target_bbox)],
        id_switches := st.id_switches +
          (match st.prev_track_id with
           | some pt => if c.track_id ≠ pt then 1 else 0
           | none => 0),
        prev_track_id := some c.track_id } := by
  simp only [runStep]
  rw [h]

/-- Unfolding of `runStep` when the resolver reported no match. -/
theorem runStep_none_eq (pr : RunParams) (st : RunState) (cands : List Candidate)
    (h : (resolveTarget pr.target_bbox st.target_track_id cands).1 = none) :
    runStep pr st cands =
      { st with
        frame_log := st.frame_log ++
          [{ frame := st.frame_log.length,
             time_sec := (st.frame_log.length : ℚ) / (pr.fps : ℚ),
             tracked := false, bbox := none, confidence := none,
             track_id := none }],
        target_track_id := (resolveTarget pr.target_bbox st.target_track_id cands).2,
        prev_bbox := none } := by
  simp only [runStep]
  rw [h]

/-- One tracking step preserves frame-log well-formedness. -/
theorem runStep_logInv (pr : RunParams) (st : RunState) (cands : List Candidate)
    (h : LogInv st.frame_log) : LogInv (runStep pr st cands).frame_log := by
  cases hbest : (resolveTarget pr.target_bbox st.target_track_id cands).1 with
  | some c =>
      rw [runStep_some_eq pr st cands c hbest]
      exact logInv_append _ _ h rfl (by simp) (by simp)
  | none =>
      rw [runStep_none_eq pr st cands hbest]
      exact logInv_append _ _ h rfl (by simp) (by simp)

/-- Claim C7: every record appended by the run orchestrator satisfies
`tracked ↔ bbox present`, untracked records carry no confidence or
track id, the record at position `i` has `frame = i`, and hence records
appear in strictly increasing `frame` order. -/
theorem c7_frame_log_invariants (pr : RunParams) (inputs : List (List Candidate)) :
    (∀ (i : ℕ) (r : TrackingFrame), ((runAll pr inputs).frame_log)[i]? = some r →
      r.frame = i ∧ (r.tracked = true ↔ r.bbox ≠ none) ∧
      (r.tracked = false → r.confidence = none ∧ r.track_id = none)) ∧
    (∀ (i j : ℕ) (ri rj : TrackingFrame), i < j →
      ((runAll pr inputs).frame_log)[i]? = some ri →
      ((runAll pr inputs).frame_log)[j]? = some rj →
      ri.frame < rj.frame) := by
  have hinv : LogInv (runAll pr inputs).frame_log := by
    refine foldl_inv (runStep pr) (fun st => LogInv st.frame_log)
      (fun s t h => runStep_logInv pr s t h) inputs initState ?_
    intro i r hx
    simp [initState] at hx
  refine ⟨hinv, ?_⟩
  intro i j ri rj hij hi hj
  rw [(hinv i ri hi).1, (hinv j rj hj).1]
  exact hij

/-- Witness for C7 at a concrete two-frame run, index 0. -/
theorem c7_witness :
    (((runAll jumpPr jumpInputs).frame_log)[0]? = some
        ⟨0, 0, true, some ⟨0, 0, 2, 2⟩, some 1, some 1⟩ →
      (⟨0, 0, true, some ⟨0, 0, 2, 2⟩, some 1, some 1⟩ : TrackingFrame).frame = 0 ∧
      ((⟨0, 0, true, some ⟨0, 0, 2, 2⟩, some 1, some 1⟩ : TrackingFrame).tracked = true ↔
        (⟨0, 0, true, some ⟨0, 0, 2, 2⟩, some 1, some 1⟩ : TrackingFrame).bbox ≠ none) ∧
      ((⟨0, 0, true, some ⟨0, 0, 2, 2⟩, some 1, some 1⟩ : TrackingFrame).tracked = false →
        (⟨0, 0, true, some ⟨0, 0, 2, 2⟩, some 1, some 1⟩ : TrackingFrame).confidence = none ∧
        (⟨0, 0, true, some ⟨0, 0, 2, 2⟩, some 1, some 1⟩ : TrackingFrame).track_id = none)) :=
  (c7_frame_log_invariants jumpPr jumpInputs).1 0
    ⟨0, 0, true, some ⟨0, 0, 2, 2⟩, some 1, some 1⟩

/-- One tracking step preserves the lock invariant: the matched id is
always the locked id, so the switch counter's increment condition never
fires. -/
theorem runStep_lockInv (pr : RunParams) (st : RunState) (cands : List Candidate)
    (h : LockInv st) : LockInv (runStep pr st cands) := by
  obtain ⟨hsw, hprev⟩ := h
  cases hbest : (resolveTarget pr.target_bbox st.target_track_id cands).1 with
  | none =>
      rw [runStep_none_eq pr st cands hbest]
      refine ⟨hsw, ?_⟩
      rcases hprev with hp | hp
      · exact Or.inl hp
      · cases htgt : st.target_track_id with
        | none => exact Or.inl (hp.trans htgt)
        | some t =>
            right
            show st.prev_track_id =
              (resolveTarget pr.target_bbox (some t) cands).2
            rw [resolveTarget_snd_locked, hp]
            exact htgt
  | some c =>
      rw [runStep_some_eq pr st cands c hbest]
      have htgt2 : (resolveTarget pr.target_bbox st.target_track_id cands).2
          = some c.track_id :=
        resolveTarget_lock_of_match _ _ _ _ hbest
      refine ⟨?_, Or.inr ?_⟩
      · show st.id_switches +
          (match st.prev_track_id with
           | some pt => if c.track_id ≠ pt then 1 else 0
           | none => 0) = 0
        cases hpt : st.prev_track_id with
        | none => simpa using hsw
        | some pt =>
            rcases hprev with hp | hp
            · rw [hpt] at hp
              cases hp
            · rw [hpt] at hp
              have hb2 : (resolveTarget pr.target_bbox (some pt) cands).1 = some c := by
                rw [hp]
                exact hbest
              have hc : c.track_id = pt := find?_track_id_eq hb2
              simp [hc, hsw]
      · show some c.track_id =
          (resolveTarget pr.target_bbox st.target_track_id cands).2
        exact htgt2.symm

/-- Claim C10: with the external tracking stream modelled as an
arbitrary sequence of per-frame candidate lists, the id-switch counter
of a finished run is always 0: once locked, every matched frame carries
exactly the locked id, so the increment branch is unreachable. -/
theorem c10_no_id_switches (pr : RunParams) (inputs : List (List Candidate)) :
    (runAll pr inputs).id_switches = 0 :=
  (foldl_inv (runStep pr) LockInv (fun s t h => runStep_lockInv pr s t h)
    inputs initState ⟨rfl, Or.inl rfl⟩).1

/-- A pair whose second record is untracked is never a jump. -/
theorem pairJump_untracked (r1 r2 : TrackingFrame) (h : r2.tracked = false) :
    pairJump r1 r2 = false := by
  simp [pairJump, h]

/-- Appending one record adds exactly the jump contributed by the last
previous record (if any). -/
theorem jumpCountSpec_concat :
    ∀ (l : List TrackingFrame) (r : TrackingFrame),
      jumpCountSpec (l ++ [r]) = jumpCountSpec l +
        (match l.getLast? with
         | some rl => if pairJump rl r then 1 else 0
         | none => 0) := by
  intro l
  induction l with
  | nil => intro r; simp [jumpCountSpec]
  | cons a rest ih =>
      intro r
      cases rest with
      | nil => simp [jumpCountSpec]
      | cons b rest2 =>
          show (if pairJump a b then 1 else 0) + jumpCountSpec ((b :: rest2) ++ [r])
              = ((if pairJump a b then 1 else 0) + jumpCountSpec (b :: rest2)) +
                (match (a :: b :: rest2).getLast? with
                 | some rl => if pairJump rl r then 1 else 0
                 | none => 0)
          rw [ih r, List.getLast?_cons_cons]
          omega

/-- One tracking step preserves the jump-counting invariant. -/
theorem runStep_jumpInv (pr : RunParams) (st : RunState) (cands : List Candidate)
    (h : JumpInv st) : JumpInv (runStep pr st cands) := by
  obtain ⟨hcount, hprev⟩ := h
  cases hbest : (resolveTarget pr.target_bbox st.target_track_id cands).1 with
  | some c =>
      rw [runStep_some_eq pr st cands c hbest]
      constructor
      · show st.position_jumps +
            (match st.prev_bbox with
             | some pb => if (40000 : ℚ) < distSq (center c.bbox) (center pb)
                 then 1 else 0
             | none => 0) = jumpCountSpec (st.frame_log ++ [_])
        rw [jumpCountSpec_concat, ← hcount]
        congr 1
        rcases hprev with ⟨hnil, hpb⟩ | ⟨rl, hgl, hcase⟩
        · rw [hnil, hpb]
          rfl
        · rw [hgl]
          rcases hcase with ⟨htr, hpb⟩ | ⟨htr, hpb⟩
          · rw [hpb]
            cases hbb : rl.bbox with
            | none => simp [pairJump, hbb]
            | some pb => simp [pairJump, htr, hbb, center, distSq]
          · rw [hpb]
            simp [pairJump, htr]
      · exact Or.inr ⟨_, List.getLast?_concat _, Or.inl ⟨rfl, rfl⟩⟩
  | none =>
      rw [runStep_none_eq pr st cands hbest]
      constructor
      · show st.position_jumps = jumpCountSpec (st.frame_log ++ [_])
        rw [jumpCountSpec_concat]
        cases hgl : st.frame_log.getLast? with
        | none => simpa using hcount
        | some rl =>
            show st.position_jumps = jumpCountSpec st.frame_log +
              (if pairJump rl
                  { frame := st.frame_log.length,
                    time_sec := (st.frame_log.length : ℚ) / (pr.fps : ℚ),
                    tracked := false, bbox := none, confidence := none,
                    track_id := none } then 1 else 0)
            rw [pairJump_untracked rl _ rfl]
            simpa using hcount
      · exact Or.inr ⟨_, List.getLast?_concat _, Or.inr ⟨rfl, rfl⟩⟩

/-- Claim C4: `position_jumps` counts exactly the adjacent pairs of
tracked records whose centers are more than 200px apart (no jump across
a tracking gap, since a lost frame resets the previous box); the
concrete 205px two-frame run yields exactly one jump. -/
theorem c4_position_jumps :
    (∀ (pr : RunParams) (inputs : List (List Candidate)),
      (runAll pr inputs).position_jumps =
        jumpCountSpec (runAll pr inputs).frame_log) ∧
    (runAll jumpPr jumpInputs).position_jumps = 1 ∧
    jumpCountSpec (runAll jumpPr jumpInputs).frame_log = 1 := by
  refine ⟨?_, ?_, ?_⟩
  case refine_2 =>
    norm_num [runAll, runStep, resolveTarget, find_closest_box, fcbLoop, initState,
      jumpPr, jumpInputs, center, distSq, List.find?]
  case refine_3 =>
    norm_num [runAll, runStep, resolveTarget, find_closest_box, fcbLoop, initState,
      jumpPr, jumpInputs, center, distSq, List.find?, jumpCountSpec, pairJump]
  intro pr inputs
  exact (foldl_inv (runStep pr) JumpInv (fun s t h => runStep_jumpInv pr s t h)
    inputs initState ⟨rfl, Or.inl ⟨rfl, rfl⟩⟩).1

/-- One tracking step preserves the drift bookkeeping. -/
theorem runStep_driftInv (pr : RunParams) (st : RunState) (cands : List Candidate)
    (h : DriftInv pr st) : DriftInv pr (runStep pr st cands) := by
  cases hbest : (resolveTarget pr.target_bbox st.target_track_id cands).1 with
  | some c =>
      rw [runStep_some_eq pr st cands c hbest]
      show st.center_drifts_sq ++ [distSq (center c.bbox) (center pr.target_bbox)]
          = List.filterMap _ (st.frame_log ++ [_])
      rw [List.filterMap_append, h]
      simp
  | none =>
      rw [runStep_none_eq pr st cands hbest]
      show st.center_drifts_sq = List.filterMap _ (st.frame_log ++ [_])
      rw [List.filterMap_append, h]
      simp

/-- The rational list maximum is bounded by any nonnegative bound on the
elements. -/
theorem maxListQ_le (c : ℚ) (hc : 0 ≤ c) :
    ∀ l : List ℚ, (∀ x ∈ l, x ≤ c) → maxListQ l ≤ c := by
  intro l
  induction l with
  | nil =>
      intro _
      simpa [maxListQ] using hc
  | cons x rest ih =>
      intro h
      have h1 : x ≤ c := h x (by simp)
      have h2 := ih (fun y hy => h y (List.mem_cons_of_mem x hy))
      show max x (maxListQ rest) ≤ c
      exact max_le h1 h2

/-- Claim C5: `frozen_track` is true iff the frame count exceeds 30 and
the max center drift is below 1px (here on squared drifts, equivalently);
a run of more than 30 frames with every tracked center within 0.5px of
the initial target center is frozen; a frozen run forces
`likely_wrong_player` and a 30-point quality deduction. -/
theorem c5_frozen_track :
    (∀ (n : ℕ) (m : ℚ), frozen_track_calc n m = true ↔ (30 < n ∧ m < 1)) ∧
    (∀ (pr : RunParams) (inputs : List (List Candidate)),
      30 < (runAll pr inputs).frame_log.length →
      (∀ r ∈ (runAll pr inputs).frame_log, ∀ b, r.bbox = some b →
        distSq (center b) (center pr.target_bbox) ≤ 1/4) →
      frozen_track_run (runAll pr inputs) = true) ∧
    (∀ (pj : ℕ) (bv bsv : ℚ) (sizes : List ℚ) (cdr fd med : ℚ),
      likely_wrong_player_calc pj bv bsv sizes cdr fd med true = true) ∧
    (∀ (pj : ℕ) (bv cdr : ℚ) (lw : Bool),
      quality_score_calc pj bv cdr true lw =
        max 0 ((((100 - min ((pj : ℤ) * 5) 30)
          - min (pyInt (bv / 100)) 30)
          - min (pyInt (cdr * 200)) 40)
          - 30 - (if lw then 40 else 0))) := by
  refine ⟨?_, ?_, ?_, ?_⟩
  · intro n m
    simp [frozen_track_calc]
  · intro pr inputs hlen hdrift
    have hinv : DriftInv pr (runAll pr inputs) :=
      foldl_inv (runStep pr) (DriftInv pr)
        (fun s t h => runStep_driftInv pr s t h) inputs initState rfl
    have hbound : ∀ x ∈ (runAll pr inputs).center_drifts_sq, x ≤ 1/4 := by
      intro x hx
      rw [hinv] at hx
      obtain ⟨r, hr, hmap⟩ := List.mem_filterMap.mp hx
      obtain ⟨b, hb, hdb⟩ := Option.map_eq_some'.mp hmap
      rw [← hdb]
      exact hdrift r hr b hb
    have hmax : max_center_drift_sq (runAll pr inputs) ≤ 1/4 :=
      maxListQ_le (1/4) (by norm_num) _ hbound
    rw [frozen_track_run, Bool.and_eq_true]
    exact ⟨decide_eq_true hlen,
      decide_eq_true (lt_of_le_of_lt hmax (by norm_num))⟩
  · intro pj bv bsv sizes cdr fd med
    simp [likely_wrong_player_calc]
  · intro pj bv cdr lw
    rfl

/-- Witness for C5: the concrete 31-frame zero-drift run is frozen. -/
theorem c5_witness :
    frozen_track_run (runAll frozenPr frozenInputs) = true := by
  refine (c5_frozen_track).2.1 frozenPr frozenInputs (by decide) ?_
  have hall : ∀ r ∈ (runAll frozenPr frozenInputs).frame_log,
      r.bbox = none ∨ r.bbox = some ⟨0, 0, 2, 2⟩ := by decide
  intro r hr b hb
  rcases hall r hr with hnone | hsome
  · rw [hnone] at hb
    cases hb
  · rw [hsome] at hb
    injection hb with hb2
    rw [← hb2]
    norm_num [distSq, center, frozenPr]

end BulkTest
